import Mathlib

/-!
Verification of the curved-screen component (`src/curved-screen.ts`).

The component has two pure computations:

* `setUVsForSegment(segmentIndex, totalSegments)` — the UV slice mapper,
  returning the 48-number UV array for the box primitive of one segment;
* `calculateSegmentTransform(segmentIndex)` — the curve layout function,
  a closure inside `createCurvedScreen` over the captured constants
  `screenWidth`, `totalSegments` and the resolved `curveFactor`,
  returning the segment's local position, rotation and tangent angle.

JavaScript numbers are modelled as real numbers; the UV mapper, whose
arithmetic is rational in its integer inputs, is modelled over `ℚ` (with
`ℤ` inputs, since JavaScript subtraction `(totalSegments - 1) - segmentIndex`
can go negative) so that concrete values are decidable.  The rotation
quaternion `Quaternion.fromEulerDegrees(0, rotationY, 0)` is modelled by its
Euler-angle-degree triple `(0, rotationY, 0)`.
-/

namespace CurvedScreen

/-- 3D vector, modelling `Vector3` of the SDK math library. -/
structure Vec3 where
  x : ℝ
  y : ℝ
  z : ℝ

/-- Result record of `calculateSegmentTransform`: the local position, the
rotation (as the Euler-degree triple handed to `Quaternion.fromEulerDegrees`)
and the tangent angle in radians. -/
structure SegmentTransform where
  position : Vec3
  eulerDeg : Vec3
  angle : ℝ

/-- Local constant `reversedSegmentIndex` of `setUVsForSegment`
(src/curved-screen.ts line 40): `(totalSegments - 1) - segmentIndex`. -/
def reversedSegmentIndex (segmentIndex totalSegments : ℤ) : ℤ :=
  (totalSegments - 1) - segmentIndex

/-- Local constant `uStart` of `setUVsForSegment` (line 41):
`reversedSegmentIndex / totalSegments`. -/
def uStart (segmentIndex totalSegments : ℤ) : ℚ :=
  (reversedSegmentIndex segmentIndex totalSegments : ℚ) / (totalSegments : ℚ)

/-- Local constant `uEnd` of `setUVsForSegment` (line 42):
`(reversedSegmentIndex + 1) / totalSegments`. -/
def uEnd (segmentIndex totalSegments : ℤ) : ℚ :=
  ((reversedSegmentIndex segmentIndex totalSegments : ℚ) + 1) / (totalSegments : ℚ)

/-- `setUVsForSegment` (src/curved-screen.ts lines 37–62): the 48-number UV
array for the six faces of the box primitive, in face order Top, Bottom,
Back, Front, Right (the visible screen face), Left. -/
def setUVsForSegment (segmentIndex totalSegments : ℤ) : List ℚ :=
  [0, 0, 0, 0, 0, 0, 0, 0,
   0, 0, 0, 0, 0, 0, 0, 0,
   0, 0, 0, 0, 0, 0, 0, 0,
   0, 0, 0, 0, 0, 0, 0, 0,
   uEnd segmentIndex totalSegments, 1,
   uStart segmentIndex totalSegments, 1,
   uStart segmentIndex totalSegments, 0,
   uEnd segmentIndex totalSegments, 0,
   0, 0, 0, 0, 0, 0, 0, 0]

/-- Local constant `x` of `calculateSegmentTransform` (line 101), in terms of
the captured `screenWidth` and `totalSegments`:
`-screenWidth / 2 + (segmentIndex + 0.5) * (screenWidth / totalSegments)`. -/
noncomputable def segmentX (screenWidth : ℝ) (totalSegments segmentIndex : ℕ) : ℝ :=
  -screenWidth / 2 + ((segmentIndex : ℝ) + 0.5) * (screenWidth / (totalSegments : ℝ))

/-- Local constant `z` of `calculateSegmentTransform` (line 106):
`curveFactor * (x / screenWidth) * (x / screenWidth) * screenWidth`. -/
noncomputable def segmentZ (screenWidth curveFactor : ℝ) (totalSegments segmentIndex : ℕ) : ℝ :=
  curveFactor * (segmentX screenWidth totalSegments segmentIndex / screenWidth) *
    (segmentX screenWidth totalSegments segmentIndex / screenWidth) * screenWidth

/-- Local constant `derivative` of `calculateSegmentTransform` (line 110):
`2 * curveFactor * x / screenWidth`. -/
noncomputable def segmentDerivative (screenWidth curveFactor : ℝ)
    (totalSegments segmentIndex : ℕ) : ℝ :=
  2 * curveFactor * segmentX screenWidth totalSegments segmentIndex / screenWidth

/-- Local constant `angle` of `calculateSegmentTransform` (line 112):
`Math.atan(derivative)`. -/
noncomputable def segmentAngle (screenWidth curveFactor : ℝ)
    (totalSegments segmentIndex : ℕ) : ℝ :=
  Real.arctan (segmentDerivative screenWidth curveFactor totalSegments segmentIndex)

/-- Local constant `rotationY` of `calculateSegmentTransform` (line 115):
`-angle * (180 / Math.PI)`, the yaw in degrees. -/
noncomputable def rotationY (screenWidth curveFactor : ℝ)
    (totalSegments segmentIndex : ℕ) : ℝ :=
  -segmentAngle screenWidth curveFactor totalSegments segmentIndex * (180 / Real.pi)

/-- `calculateSegmentTransform` (src/curved-screen.ts lines 99–122), as a
function of the constants it captures from `createCurvedScreen`'s scope
(`screenWidth`, `totalSegments`, the resolved `curveFactor`) and of
`segmentIndex`.  Returns position `(x, 0, z)`, rotation
`fromEulerDegrees(0, rotationY, 0)` and the tangent angle. -/
noncomputable def calculateSegmentTransform (screenWidth curveFactor : ℝ)
    (totalSegments segmentIndex : ℕ) : SegmentTransform :=
  ⟨⟨segmentX screenWidth totalSegments segmentIndex, 0,
    segmentZ screenWidth curveFactor totalSegments segmentIndex⟩,
   ⟨0, rotationY screenWidth curveFactor totalSegments segmentIndex, 0⟩,
   segmentAngle screenWidth curveFactor totalSegments segmentIndex⟩

/-- Internal blueprint constant (line 73): `const totalSegments = 22`. -/
def totalSegments : ℕ := 22

/-- Internal blueprint constant (line 74): `const screenWidth = 16`. -/
noncomputable def screenWidth : ℝ := 16

/-- Internal blueprint constant (line 75): `const screenHeight = 9`. -/
noncomputable def screenHeight : ℝ := 9

/-- Loop-body constant `adjustedWidth` (line 135):
`(screenWidth / totalSegments) / Math.cos(angle)`, with `angle` the tangent
angle returned by `calculateSegmentTransform`. -/
noncomputable def adjustedWidth (curveFactor : ℝ) (segmentIndex : ℕ) : ℝ :=
  (screenWidth / (totalSegments : ℝ)) /
    Real.cos ((calculateSegmentTransform screenWidth curveFactor totalSegments
        segmentIndex).angle)

/-- What the creation loop (lines 126–159) attaches to one segment entity:
its transform, its scale `Vector3.create(adjustedWidth, screenHeight, 0.1)`
and its UV array. -/
structure SegmentData where
  transform : SegmentTransform
  scale : Vec3
  uvs : List ℚ

/-- Body of the creation loop of `createCurvedScreen` for index `i`, with
`curveFactor = options.curveFactor ?? 0.3` (line 80) resolved from the
optional field. -/
noncomputable def segmentData (curveFactorOpt : Option ℝ) (i : ℕ) : SegmentData :=
  ⟨calculateSegmentTransform screenWidth (curveFactorOpt.getD 0.3) totalSegments i,
   ⟨adjustedWidth (curveFactorOpt.getD 0.3) i, screenHeight, 0.1⟩,
   setUVsForSegment (i : ℤ) (totalSegments : ℤ)⟩

/-- `createCurvedScreen` (src/curved-screen.ts lines 69–162) restricted to
its pure content: the list of per-segment data produced by the loop
`for (let i = 0; i < totalSegments; i++)`. -/
noncomputable def createCurvedScreen (curveFactorOpt : Option ℝ) : List SegmentData :=
  (List.range totalSegments).map (segmentData curveFactorOpt)

/-- `createCurvedScreen` always creates exactly `totalSegments` segments. -/
theorem createCurvedScreen_length (curveFactorOpt : Option ℝ) :
    (createCurvedScreen curveFactorOpt).length = totalSegments := by
  simp [createCurvedScreen]

/-- C3: for every segment index and segment count, the UV mapper computes
`reversedIndex = (totalSegments - 1) - segmentIndex`,
`uStart = reversedIndex / totalSegments`,
`uEnd = (reversedIndex + 1) / totalSegments`, and assigns the visible face's
four corners, in the fixed winding order, `(uEnd, 1)`, `(uStart, 1)`,
`(uStart, 0)`, `(uEnd, 0)` — all other entries being zero. -/
theorem setUVsForSegment_formula (segmentIndex totalSegments : ℤ) :
    reversedSegmentIndex segmentIndex totalSegments =
      (totalSegments - 1) - segmentIndex ∧
    uStart segmentIndex totalSegments =
      (((totalSegments - 1) - segmentIndex : ℤ) : ℚ) / (totalSegments : ℚ) ∧
    uEnd segmentIndex totalSegments =
      ((((totalSegments - 1) - segmentIndex : ℤ) : ℚ) + 1) / (totalSegments : ℚ) ∧
    setUVsForSegment segmentIndex totalSegments =
      [0, 0, 0, 0, 0, 0, 0, 0,
       0, 0, 0, 0, 0, 0, 0, 0,
       0, 0, 0, 0, 0, 0, 0, 0,
       0, 0, 0, 0, 0, 0, 0, 0,
       uEnd segmentIndex totalSegments, 1,
       uStart segmentIndex totalSegments, 1,
       uStart segmentIndex totalSegments, 0,
       uEnd segmentIndex totalSegments, 0,
       0, 0, 0, 0, 0, 0, 0, 0] :=
  ⟨rfl, rfl, rfl, rfl⟩

/-- C9: for every segment index and segment count, the UV array has exactly
48 entries (6 faces × 4 corners × 2 coordinates), and the 40 entries of the
five non-visible faces (the first 32 and the last 8) are exactly 0; only the
8 entries of the visible face (positions 32–39) depend on the inputs. -/
theorem setUVsForSegment_shape (segmentIndex totalSegments : ℤ) :
    (setUVsForSegment segmentIndex totalSegments).length = 48 ∧
    (setUVsForSegment segmentIndex totalSegments).take 32 = List.replicate 32 0 ∧
    (setUVsForSegment segmentIndex totalSegments).drop 40 = List.replicate 8 0 :=
  ⟨rfl, rfl, rfl⟩

/-- C7 (evaluation at the failing input): `setUVsForSegment(0, 0)` returns a
full 48-entry UV array — the source has no validation and no error path, so
the degenerate count `totalSegments = 0` does not fail fast.  (Only the shape
is asserted here: over JavaScript floats the visible-face entries of this
call are `NaN`/`-Infinity`, which the rational model does not represent.) -/
theorem setUVsForSegment_zero_segments : (setUVsForSegment 0 0).length = 48 :=
  rfl

/-- For an even count `2*(m+1)`, the left straddling segment's center is the
mirror image of the right one's. -/
theorem segmentX_even_neg (W : ℝ) (m : ℕ) :
    segmentX W (2 * (m + 1)) m = -segmentX W (2 * (m + 1)) (m + 1) := by
  have hne : ((2 * (m + 1) : ℕ) : ℝ) ≠ 0 := by positivity
  unfold segmentX
  push_cast at hne ⊢
  field_simp
  ring

/-- For an even count `2*(m+1)`, the right straddling segment's center is at
`W / (4*(m+1))`. -/
theorem segmentX_even_right (W : ℝ) (m : ℕ) :
    segmentX W (2 * (m + 1)) (m + 1) = W / (4 * ((m : ℝ) + 1)) := by
  have hne : ((2 * (m + 1) : ℕ) : ℝ) ≠ 0 := by positivity
  unfold segmentX
  push_cast at hne ⊢
  field_simp
  ring

/-- For an odd count `2*m+1`, the middle segment's center is at `x = 0`. -/
theorem segmentX_odd_middle (W : ℝ) (m : ℕ) : segmentX W (2 * m + 1) m = 0 := by
  have hne : ((2 * m + 1 : ℕ) : ℝ) ≠ 0 := by positivity
  unfold segmentX
  push_cast at hne ⊢
  field_simp
  ring

/-- C2: for every captured configuration and segment index, the layout places
the segment at `x = -screenWidth/2 + (i + 0.5) * (screenWidth/totalSegments)`,
`y = 0`, `z = curveFactor * (x/screenWidth)^2 * screenWidth`, and rotates it
about the vertical (yaw) axis only — pitch and roll Euler angles 0 — by minus
the tangent angle `atan(2 * curveFactor * x / screenWidth)` (stored in
degrees, hence the `180/π` factor). -/
theorem calculateSegmentTransform_formula (W cf : ℝ) (n i : ℕ) :
    (calculateSegmentTransform W cf n i).position.x =
      -W / 2 + ((i : ℝ) + 0.5) * (W / (n : ℝ)) ∧
    (calculateSegmentTransform W cf n i).position.y = 0 ∧
    (calculateSegmentTransform W cf n i).position.z =
      cf * ((calculateSegmentTransform W cf n i).position.x / W) ^ 2 * W ∧
    (calculateSegmentTransform W cf n i).eulerDeg.x = 0 ∧
    (calculateSegmentTransform W cf n i).eulerDeg.z = 0 ∧
    (calculateSegmentTransform W cf n i).eulerDeg.y =
      -Real.arctan (2 * cf * (calculateSegmentTransform W cf n i).position.x / W) *
        (180 / Real.pi) :=
  ⟨rfl, rfl, by simp only [calculateSegmentTransform, segmentZ]; ring, rfl, rfl, rfl⟩

/-- C6: for every even segment count `2*(m+1)` (and any captured width and
curve factor), the two segments straddling the center — indices `m` and
`m+1` — have `x` of equal magnitude and opposite sign, equal `z`, and tangent
angle and yaw rotation of equal magnitude and opposite sign. -/
theorem straddle_symmetry (W cf : ℝ) (m : ℕ) :
    (calculateSegmentTransform W cf (2 * (m + 1)) m).position.x =
      -(calculateSegmentTransform W cf (2 * (m + 1)) (m + 1)).position.x ∧
    (calculateSegmentTransform W cf (2 * (m + 1)) m).position.z =
      (calculateSegmentTransform W cf (2 * (m + 1)) (m + 1)).position.z ∧
    (calculateSegmentTransform W cf (2 * (m + 1)) m).angle =
      -(calculateSegmentTransform W cf (2 * (m + 1)) (m + 1)).angle ∧
    (calculateSegmentTransform W cf (2 * (m + 1)) m).eulerDeg.y =
      -(calculateSegmentTransform W cf (2 * (m + 1)) (m + 1)).eulerDeg.y := by
  have hx := segmentX_even_neg W m
  have hd : segmentDerivative W cf (2 * (m + 1)) m =
      -segmentDerivative W cf (2 * (m + 1)) (m + 1) := by
    simp only [segmentDerivative]
    rw [hx]
    ring
  refine ⟨hx, ?_, ?_, ?_⟩
  · simp only [calculateSegmentTransform, segmentZ]
    rw [hx]
    ring
  · simp only [calculateSegmentTransform, segmentAngle]
    rw [hd]
    exact Real.arctan_neg _
  · simp only [calculateSegmentTransform, rotationY, segmentAngle]
    rw [hd, Real.arctan_neg]
    ring

/-- C10: for every real `curveFactor` and every segment index, the tangent
angle `atan(derivative)` lies strictly inside `(-π/2, π/2)`, so
`cos(angle)` is strictly positive, and `adjustedWidth =
(screenWidth / totalSegments) / cos(angle)` is well-defined, strictly
positive, and at least the unadjusted width `screenWidth / totalSegments`. -/
theorem adjustedWidth_safe (cf : ℝ) (i : ℕ) :
    -(Real.pi / 2) < (calculateSegmentTransform screenWidth cf totalSegments i).angle ∧
    (calculateSegmentTransform screenWidth cf totalSegments i).angle < Real.pi / 2 ∧
    0 < Real.cos ((calculateSegmentTransform screenWidth cf totalSegments i).angle) ∧
    0 < adjustedWidth cf i ∧
    screenWidth / (totalSegments : ℝ) ≤ adjustedWidth cf i := by
  have h1 : -(Real.pi / 2) <
      (calculateSegmentTransform screenWidth cf totalSegments i).angle :=
    Real.neg_pi_div_two_lt_arctan _
  have h2 : (calculateSegmentTransform screenWidth cf totalSegments i).angle <
      Real.pi / 2 :=
    Real.arctan_lt_pi_div_two _
  have hcos : 0 < Real.cos
      ((calculateSegmentTransform screenWidth cf totalSegments i).angle) :=
    Real.cos_pos_of_mem_Ioo ⟨h1, h2⟩
  have hw : 0 < screenWidth / (totalSegments : ℝ) := by
    rw [screenWidth, totalSegments]
    norm_num
  have hpos : 0 < adjustedWidth cf i := div_pos hw hcos
  refine ⟨h1, h2, hcos, hpos, ?_⟩
  rw [adjustedWidth, le_div_iff₀ hcos]
  calc screenWidth / (totalSegments : ℝ) *
        Real.cos ((calculateSegmentTransform screenWidth cf totalSegments i).angle)
      ≤ screenWidth / (totalSegments : ℝ) * 1 :=
        mul_le_mul_of_nonneg_left (Real.cos_le_one _) hw.le
    _ = screenWidth / (totalSegments : ℝ) := mul_one _

/-- C5 (counterexample): at the reference configuration (`screenWidth = 16`,
`curveFactor = 0.3`, `segmentCount = 22`, even), the straddling segment of
index 11 has curve depth `z = 3/1210 ≈ 0.00248 ≠ 0` and a nonzero yaw
rotation — refuting the claim that the straddling segments of an even count
have `z = 0` and zero rotation. -/
theorem straddle_depth_nonzero :
    (calculateSegmentTransform 16 0.3 22 11).position.z = 3 / 1210 ∧
    (calculateSegmentTransform 16 0.3 22 11).position.z ≠ 0 ∧
    (calculateSegmentTransform 16 0.3 22 11).eulerDeg.y ≠ 0 := by
  have hd : segmentDerivative 16 0.3 22 11 = 3 / 220 := by
    simp only [segmentDerivative, segmentX]
    norm_num
  refine ⟨?_, ?_, ?_⟩
  · simp only [calculateSegmentTransform, segmentZ, segmentX]
    norm_num
  · simp only [calculateSegmentTransform, segmentZ, segmentX]
    norm_num
  · simp only [calculateSegmentTransform, rotationY, segmentAngle]
    rw [hd]
    have h1 : Real.arctan (3 / 220) ≠ 0 := by
      rw [Ne, Real.arctan_eq_zero_iff]
      norm_num
    exact mul_ne_zero (neg_ne_zero.mpr h1) (div_ne_zero (by norm_num) Real.pi_ne_zero)

/-- C5 (amended): in a valid configuration (`screenWidth > 0`), when the
segment count is odd (`2*m+1`) the middle segment (index `m`) has exactly
`x = 0`, curve depth `z = 0` and zero yaw rotation; when the count is even
(`2*(m+1)`) the two straddling segments (indices `m` and `m+1`) instead sit
at `x = ∓screenWidth/(2*count)`, share the nonzero-in-general curve depth
`z = curveFactor * screenWidth / (4 * count^2)` and carry the opposite
nonzero-in-general yaw rotations `±atan(curveFactor/count) * (180/π)`. -/
theorem center_segment_depth (W cf : ℝ) (m : ℕ) (hW : 0 < W) :
    ((calculateSegmentTransform W cf (2 * m + 1) m).position.x = 0 ∧
     (calculateSegmentTransform W cf (2 * m + 1) m).position.z = 0 ∧
     (calculateSegmentTransform W cf (2 * m + 1) m).eulerDeg.y = 0) ∧
    ((calculateSegmentTransform W cf (2 * (m + 1)) (m + 1)).position.x =
        W / (4 * ((m : ℝ) + 1)) ∧
     (calculateSegmentTransform W cf (2 * (m + 1)) m).position.x =
        -(W / (4 * ((m : ℝ) + 1))) ∧
     (calculateSegmentTransform W cf (2 * (m + 1)) (m + 1)).position.z =
        cf * W / (16 * ((m : ℝ) + 1) ^ 2) ∧
     (calculateSegmentTransform W cf (2 * (m + 1)) m).position.z =
        cf * W / (16 * ((m : ℝ) + 1) ^ 2) ∧
     (calculateSegmentTransform W cf (2 * (m + 1)) (m + 1)).eulerDeg.y =
        -Real.arctan (cf / (2 * ((m : ℝ) + 1))) * (180 / Real.pi) ∧
     (calculateSegmentTransform W cf (2 * (m + 1)) m).eulerDeg.y =
        Real.arctan (cf / (2 * ((m : ℝ) + 1))) * (180 / Real.pi)) := by
  have hWne : W ≠ 0 := ne_of_gt hW
  have hm : ((m : ℝ) + 1) ≠ 0 := by positivity
  have hx0 := segmentX_odd_middle W m
  have hxr := segmentX_even_right W m
  have hxl : segmentX W (2 * (m + 1)) m = -(W / (4 * ((m : ℝ) + 1))) := by
    rw [segmentX_even_neg, hxr]
  have hdr : segmentDerivative W cf (2 * (m + 1)) (m + 1) =
      cf / (2 * ((m : ℝ) + 1)) := by
    simp only [segmentDerivative]
    rw [hxr]
    field_simp
    ring
  have hdl : segmentDerivative W cf (2 * (m + 1)) m =
      -(cf / (2 * ((m : ℝ) + 1))) := by
    simp only [segmentDerivative]
    rw [hxl]
    field_simp
    ring
  refine ⟨⟨hx0, ?_, ?_⟩, hxr, hxl, ?_, ?_, ?_, ?_⟩
  · simp only [calculateSegmentTransform, segmentZ]
    rw [hx0]
    ring
  · simp only [calculateSegmentTransform, rotationY, segmentAngle, segmentDerivative]
    rw [hx0]
    simp [Real.arctan_zero]
  · simp only [calculateSegmentTransform, segmentZ]
    rw [hxr]
    field_simp
    ring
  · simp only [calculateSegmentTransform, segmentZ]
    rw [hxl]
    field_simp
    ring
  · simp only [calculateSegmentTransform, rotationY, segmentAngle]
    rw [hdr]
  · simp only [calculateSegmentTransform, rotationY, segmentAngle]
    rw [hdl, Real.arctan_neg]
    ring

/-- C5 (witness): the amended statement applied at the concrete valid
configuration `screenWidth = 16`, `curveFactor = 0.3`, odd count 1. -/
theorem center_segment_depth_witness :
    (calculateSegmentTransform 16 0.3 (2 * 0 + 1) 0).position.x = 0 ∧
    (calculateSegmentTransform 16 0.3 (2 * 0 + 1) 0).position.z = 0 ∧
    (calculateSegmentTransform 16 0.3 (2 * 0 + 1) 0).eulerDeg.y = 0 :=
  (center_segment_depth 16 0.3 0 (by norm_num)).1

/-- C4: for every curve-factor option and every segment index below the
segment count, the segment created by the loop has local scale
`(adjustedWidth, screenHeight, 0.1)` with
`adjustedWidth = (screenWidth / totalSegments) / cos(angle)` for the
segment's own tangent angle, and the depth `0.1` a fixed constant
independent of the index and of the curve factor. -/
theorem segment_scale (curveFactorOpt : Option ℝ) :
    (createCurvedScreen curveFactorOpt).length = totalSegments ∧
    ∀ (i : ℕ) (h : i < (createCurvedScreen curveFactorOpt).length),
      ((createCurvedScreen curveFactorOpt).get ⟨i, h⟩).scale =
        ⟨(screenWidth / (totalSegments : ℝ)) /
            Real.cos ((calculateSegmentTransform screenWidth
              (curveFactorOpt.getD 0.3) totalSegments i).angle),
          screenHeight, 0.1⟩ := by
  refine ⟨createCurvedScreen_length curveFactorOpt, fun i h => ?_⟩
  simp only [createCurvedScreen, List.get_eq_getElem, List.getElem_map,
    List.getElem_range, segmentData, adjustedWidth]

/-- C8 (counterexample): at the reference scenario (`segmentCount = 22`,
`screenWidth = 16`, `screenHeight = 9`, `curveFactor = 0.3`), segment index 0
has curve depth `z = 1323/1210 ≈ 1.0934`, which differs from the claimed
`≈ 0.655` by more than `0.4` — the claimed value contradicts the claim's own
formula `z = curveFactor * (x/16)^2 * 16`. -/
theorem scenario_depth_mismatch :
    (segmentData (some 0.3) 0).transform.position.z = 1323 / 1210 ∧
    0.4 < |(segmentData (some 0.3) 0).transform.position.z - 0.655| := by
  have hz : (segmentData (some 0.3) 0).transform.position.z = 1323 / 1210 := by
    simp only [segmentData, calculateSegmentTransform, segmentZ, segmentX,
      screenWidth, totalSegments, Option.getD]
    norm_num
  refine ⟨hz, ?_⟩
  rw [hz, abs_of_pos (by norm_num)]
  norm_num

/-- C8 (amended): at the reference scenario, segment index 0 has
`x = -84/11 ≈ -7.636` and `z = 0.3 * (x/16)^2 * 16 = 1323/1210 ≈ 1.0934`;
segment index 11 has `x = 4/11 ≈ 0.364` and `z = 3/1210 ≈ 0.00248`; and the
UV slice of segment index 0 uses `reversedIndex = 21`, `uStart = 21/22 ≈
0.9545` and `uEnd = 1`. -/
theorem scenario_values :
    (segmentData (some 0.3) 0).transform.position.x = -84 / 11 ∧
    (segmentData (some 0.3) 0).transform.position.z = 1323 / 1210 ∧
    (segmentData (some 0.3) 11).transform.position.x = 4 / 11 ∧
    (segmentData (some 0.3) 11).transform.position.z = 3 / 1210 ∧
    reversedSegmentIndex 0 22 = 21 ∧
    uStart 0 22 = 21 / 22 ∧
    uEnd 0 22 = 1 := by
  refine ⟨?_, ?_, ?_, ?_, rfl,
    by norm_num [uStart, reversedSegmentIndex],
    by norm_num [uEnd, reversedSegmentIndex]⟩ <;>
    · simp only [segmentData, calculateSegmentTransform, segmentZ, segmentX,
        screenWidth, totalSegments, Option.getD]
      norm_num

/-- The `n` equal-width subintervals `[k/n, (k+1)/n]`, `k < n`, tile the unit
interval. -/
theorem iUnion_Icc_div (n : ℕ) (hn : 0 < n) :
    (⋃ k ∈ Finset.range n, Set.Icc ((k : ℚ) / n) (((k : ℚ) + 1) / n)) =
      Set.Icc (0 : ℚ) 1 := by
  have hn' : (0 : ℚ) < (n : ℚ) := by exact_mod_cast hn
  ext x
  simp only [Set.mem_iUnion, Finset.mem_range, Set.mem_Icc, exists_prop]
  constructor
  · rintro ⟨k, hk, h1, h2⟩
    refine ⟨le_trans (by positivity) h1, le_trans h2 ?_⟩
    rw [div_le_one hn']
    exact_mod_cast Nat.succ_le_of_lt hk
  · rintro ⟨h0, h1⟩
    have hcast : ((n - 1 : ℕ) : ℚ) = (n : ℚ) - 1 := by
      push_cast [Nat.cast_sub hn]
      ring
    rcases eq_or_lt_of_le h1 with heq | hlt
    · refine ⟨n - 1, by omega, ?_, ?_⟩
      · rw [heq, div_le_one hn', hcast]
        linarith
      · rw [heq, hcast, le_div_iff₀ hn']
        ring_nf
        exact le_refl _
    · refine ⟨⌊x * n⌋₊, ?_, ?_, ?_⟩
      · refine (Nat.floor_lt (by positivity)).mpr ?_
        calc x * n < 1 * n := by
              exact mul_lt_mul_of_pos_right hlt hn'
          _ = n := one_mul _
      · rw [div_le_iff₀ hn']
        exact Nat.floor_le (by positivity)
      · rw [le_div_iff₀ hn']
        exact le_of_lt (Nat.lt_floor_add_one (x * n))

/-- With `i < n`, the slice's lower edge is `(n - 1 - i)/n` (natural-number
subtraction on the numerator). -/
theorem uStart_eq_div (n i : ℕ) (h : i < n) :
    uStart (i : ℤ) (n : ℤ) = ((n - 1 - i : ℕ) : ℚ) / (n : ℚ) := by
  simp only [uStart, reversedSegmentIndex]
  have hnum : (n : ℤ) - 1 - (i : ℤ) = ((n - 1 - i : ℕ) : ℤ) := by omega
  rw [hnum]
  push_cast
  ring

/-- With `i < n`, the slice's upper edge is `((n - 1 - i) + 1)/n`. -/
theorem uEnd_eq_div (n i : ℕ) (h : i < n) :
    uEnd (i : ℤ) (n : ℤ) = (((n - 1 - i : ℕ) : ℚ) + 1) / (n : ℚ) := by
  simp only [uEnd, reversedSegmentIndex]
  have hnum : (n : ℤ) - 1 - (i : ℤ) = ((n - 1 - i : ℕ) : ℤ) := by omega
  rw [hnum]
  push_cast
  ring

/-- C1: for every positive segment count `n`, the texture intervals
`[uStart, uEnd]` over all indices `0 ≤ i < n` exactly tile `[0, 1]`:
their union is all of `[0, 1]`; taking segments in physical left-to-right
index order, segment `i`'s `uStart`-side edge coincides with segment
`i+1`'s `uEnd`-side edge; and the slices never overlap — for `i < j` the
whole slice of `j` lies at or below the lower edge of the slice of `i`
(the index reversal makes `u` decrease as the physical index grows). -/
theorem uv_tiling (n : ℕ) (hn : 0 < n) :
    (⋃ i ∈ Finset.range n,
        Set.Icc (uStart (i : ℤ) (n : ℤ)) (uEnd (i : ℤ) (n : ℤ))) =
      Set.Icc (0 : ℚ) 1 ∧
    (∀ i : ℕ, i + 1 < n →
      uStart (i : ℤ) (n : ℤ) = uEnd ((i : ℤ) + 1) (n : ℤ)) ∧
    (∀ i j : ℕ, i < j → j < n →
      uEnd (j : ℤ) (n : ℤ) ≤ uStart (i : ℤ) (n : ℤ)) := by
  have hn' : (0 : ℚ) < (n : ℚ) := by exact_mod_cast hn
  refine ⟨?_, ?_, ?_⟩
  · rw [← iUnion_Icc_div n hn]
    ext x
    simp only [Set.mem_iUnion, Finset.mem_range, exists_prop]
    constructor
    · rintro ⟨i, hi, hx⟩
      refine ⟨n - 1 - i, by omega, ?_⟩
      rwa [uStart_eq_div n i hi, uEnd_eq_div n i hi] at hx
    · rintro ⟨k, hk, hx⟩
      refine ⟨n - 1 - k, by omega, ?_⟩
      rw [uStart_eq_div n _ (by omega), uEnd_eq_div n _ (by omega)]
      have hback : n - 1 - (n - 1 - k) = k := by omega
      rwa [hback]
  · intro i hi
    simp only [uStart, uEnd, reversedSegmentIndex]
    congr 1
    push_cast
    ring
  · intro i j hij hj
    simp only [uStart, uEnd, reversedSegmentIndex]
    have hn2 : (0 : ℚ) < (((n : ℕ) : ℤ) : ℚ) := by exact_mod_cast hn
    rw [div_le_div_iff_of_pos_right hn2]
    have hnum : ((n : ℤ) - 1 - (j : ℤ)) + 1 ≤ (n : ℤ) - 1 - (i : ℤ) := by omega
    exact_mod_cast hnum

/-- C1 (witness): the tiling statement at the concrete count `n = 4`: the
four slices' union is exactly `[0, 1]`. -/
theorem uv_tiling_witness :
    (⋃ i ∈ Finset.range 4,
        Set.Icc (uStart (i : ℤ) (4 : ℤ)) (uEnd (i : ℤ) (4 : ℤ))) =
      Set.Icc (0 : ℚ) 1 :=
  (uv_tiling 4 (by norm_num)).1

end CurvedScreen
